import Mathlib

/-!
Shallow embedding of the gc-utils coordinate and geometry subsystem.

Sources embedded here:
* `src/geocaching_utils/utils/coordinates.py` — `parse_coordinate`,
  `format_coordinate`, `distance` (haversine).
* `src/gc_utils/gc_utils/utils/geometry.py` — `circumcenter`,
  `is_point_inside_polygon`, `triangle_area`, `orthocenter`.

Modelling decisions:
* Python floats are modelled by exact arithmetic: `ℚ` for parsing,
  formatting and the planar geometry (all field operations), `ℝ` for the
  haversine distance (sin/cos/atan2/sqrt).  IEEE rounding is idealised
  away; the special values `inf`/`nan` produced by `float('inf')` in
  `orthocenter` are modelled exactly by the type `V` below, with
  Python's exact special-value arithmetic (no rounding is involved in
  producing or combining them).
* Python exceptions become `Except PyErr`: every `raise ValueError`
  is `.error .valueError` and a float division by zero is
  `.error .zeroDivisionError` (in Python `x / 0.0` raises
  ZeroDivisionError rather than producing IEEE infinity).
* The regular expressions of `parse_coordinate` are embedded as
  hand-rolled scanners over `List Char` with the same leftmost-match
  (`re.search`) semantics.  For each of the four patterns, every greedy
  piece (`\d+`, `[°\s]+`, …) is followed by a piece whose first
  character can never belong to the preceding class, so the greedy
  scanner without backtracking recognises exactly the strings the
  backtracking engine does; the optional pieces (`-?`, `\.?`, `["″]?`,
  `,?`) are likewise committed greedily, which is equivalent because
  the character they consume can never be matched by what follows them.
* Python's `\s` is modelled by its ASCII part (space, tab, newline,
  carriage return, vertical tab, form feed); the claims only involve
  ASCII whitespace.
-/

/-- Python exception kinds raised by the embedded code: every
`raise ValueError(...)` (including the collinear-points error of
`circumcenter`) is `valueError`, and a float division by zero is
`zeroDivisionError`. -/
inductive PyErr where
  | valueError : PyErr
  | zeroDivisionError : PyErr
deriving DecidableEq

instance {ε α : Type} [DecidableEq ε] [DecidableEq α] : DecidableEq (Except ε α) := fun x y =>
  match x, y with
  | .ok a, .ok b =>
    if h : a = b then .isTrue (by rw [h]) else .isFalse (fun hh => h (Except.ok.inj hh))
  | .error a, .error b =>
    if h : a = b then .isTrue (by rw [h]) else .isFalse (fun hh => h (Except.error.inj hh))
  | .ok _, .error _ => .isFalse (fun hh => Except.noConfusion hh)
  | .error _, .ok _ => .isFalse (fun hh => Except.noConfusion hh)

/-- The apostrophe character (the DDM minute mark). -/
def apos : Char := Char.ofNat 39

/-- The double-quote character (the DMS second mark). -/
def quot : Char := Char.ofNat 34

/-- ASCII whitespace, Python's `\s` restricted to ASCII:
space, tab, newline, carriage return, vertical tab, form feed. -/
def spaceChars : List Char := [' ', Char.ofNat 9, Char.ofNat 10, Char.ofNat 13, Char.ofNat 11, Char.ofNat 12]

/-- Membership in Python's (ASCII) `\s` class. -/
def pyIsSpace (c : Char) : Bool := spaceChars.contains c

/-- The class `[,\s]` separating the two numbers of the decimal pattern. -/
def isSepChar (c : Char) : Bool := c = ',' || pyIsSpace c

/-- The class `[°\s]` separating degrees from minutes. -/
def isDegSp (c : Char) : Bool := c = '°' || pyIsSpace c

/-- The class `['′\s]` separating minutes from seconds in the DMS pattern. -/
def isMinMark (c : Char) : Bool := c = apos || c = '′' || pyIsSpace c

/-- The class `['\s]` after the minutes in the quoted DDM pattern. -/
def isDdmMark (c : Char) : Bool := c = apos || pyIsSpace c

/-- Numeric value of a digit character. -/
def digitVal (c : Char) : ℕ := c.toNat - 48

/-- Value of a digit string, most significant digit first
(the value `int`/`float` give to a group of `\d+`). -/
def natOfDigits (l : List Char) : ℕ := l.foldl (fun a c => 10 * a + digitVal c) 0

/-- Decimal digit string of a natural number, without leading zeros
(`str(n)` for a nonnegative integer). -/
def natDigits (n : ℕ) : List Char :=
  if h : n < 10 then [Char.ofNat (48 + n)]
  else natDigits (n / 10) ++ [Char.ofNat (48 + n % 10)]
  decreasing_by exact Nat.div_lt_self (by omega) (by omega)

/-- Scanner for the unsigned body `\d+\.\d+` at the head of the input.
Greedy digit runs match Python's backtracking engine because a digit
run can never end in `.` or in a separator. -/
def matchUMag (cs1 : List Char) : Option (ℚ × List Char) :=
  let i := cs1.takeWhile Char.isDigit
  if i = [] then none else
  let rest1 := cs1.dropWhile Char.isDigit
  if rest1.head? = some '.' then
    let f := rest1.tail.takeWhile Char.isDigit
    if f = [] then none else
    some ((natOfDigits i : ℚ) + (natOfDigits f : ℚ) / 10 ^ f.length,
      rest1.tail.dropWhile Char.isDigit)
  else none

/-- Scanner for `-?\d+\.\d+` at the head of the input: one capture
group of the decimal-pair pattern.  Returns the value `float` gives
the group and the unconsumed rest. -/
def matchNumAt (cs : List Char) : Option (ℚ × List Char) :=
  let neg : Bool := cs.head? = some '-'
  let cs1 := if neg then cs.tail else cs
  match matchUMag cs1 with
  | none => none
  | some (v, rest) => some (if neg then -v else v, rest)

/-- Scanner for the whole decimal pattern
`(-?\d+\.\d+)[,\s]+(-?\d+\.\d+)` at the head of the input. -/
def matchDecPairAt (cs : List Char) : Option (ℚ × ℚ) :=
  match matchNumAt cs with
  | none => none
  | some (v1, r1) =>
    if r1.takeWhile isSepChar = [] then none else
    match matchNumAt (r1.dropWhile isSepChar) with
    | none => none
    | some (v2, _) => some (v1, v2)

/-- Python `re.search`: try the scanner at position 0, 1, … (including
the empty suffix) and return the first success. -/
def searchWith (m : List Char → Option α) : List Char → Option α
  | [] => m []
  | c :: t =>
    match m (c :: t) with
    | some r => some r
    | none => searchWith m t

/-- Scanner for one hemisphere letter out of `[NS]` (IGNORECASE):
returns whether the hemisphere negates the value. -/
def matchNS (cs : List Char) : Option (Bool × List Char) :=
  match cs with
  | c :: t =>
    if c = 'S' ∨ c = 's' then some (true, t)
    else if c = 'N' ∨ c = 'n' then some (false, t)
    else none
  | [] => none

/-- Scanner for one hemisphere letter out of `[EW]` (IGNORECASE). -/
def matchEW (cs : List Char) : Option (Bool × List Char) :=
  match cs with
  | c :: t =>
    if c = 'W' ∨ c = 'w' then some (true, t)
    else if c = 'E' ∨ c = 'e' then some (false, t)
    else none
  | [] => none

/-- Scanner for a required character-class run `[…]+`: fails unless at
least one character of the class is present, then skips the whole run. -/
def plusRun (p : Char → Bool) (cs : List Char) : Option (List Char) :=
  if cs.takeWhile p = [] then none else some (cs.dropWhile p)

/-- Scanner for `\d+`, returning its numeric value. -/
def takeNat (cs : List Char) : Option (ℕ × List Char) :=
  let i := cs.takeWhile Char.isDigit
  if i = [] then none else some (natOfDigits i, cs.dropWhile Char.isDigit)

/-- Scanner for `(\d+\.?\d*)`, returning the value `float` gives the
group (a possibly empty fraction part contributes 0). -/
def takeUDec (cs : List Char) : Option (ℚ × List Char) :=
  match takeNat cs with
  | none => none
  | some (n, rest) =>
    match rest with
    | '.' :: t =>
      let f := t.takeWhile Char.isDigit
      some ((n : ℚ) + (natOfDigits f : ℚ) / 10 ^ f.length, t.dropWhile Char.isDigit)
    | _ => some ((n : ℚ), rest)

/-- Scanner for one half of the DMS pattern:
`([NS])\s*(\d+)[°\s]+(\d+)['′\s]+(\d+\.?\d*)["″]?`, converted by
`degrees + minutes/60 + seconds/3600` and negated for S/W. -/
def matchDMSHalf (isLat : Bool) (cs : List Char) : Option (ℚ × List Char) := do
  let (neg, cs) ← if isLat then matchNS cs else matchEW cs
  let cs := cs.dropWhile pyIsSpace
  let (deg, cs) ← takeNat cs
  let cs ← plusRun isDegSp cs
  let (mins, cs) ← takeNat cs
  let cs ← plusRun isMinMark cs
  let (sec, cs) ← takeUDec cs
  let cs := match cs with
    | c :: t => if c = quot ∨ c = '″' then t else c :: t
    | [] => []
  let v : ℚ := (deg : ℚ) + (mins : ℚ) / 60 + sec / 3600
  some (if neg then -v else v, cs)

/-- Scanner for the whole DMS pattern, the two halves joined by
`\s*,?\s*`. -/
def matchDMSAt (cs : List Char) : Option (ℚ × ℚ) := do
  let (lat, cs) ← matchDMSHalf true cs
  let cs := cs.dropWhile pyIsSpace
  let cs := match cs with
    | ',' :: t => t
    | _ => cs
  let cs := cs.dropWhile pyIsSpace
  let (lon, _) ← matchDMSHalf false cs
  some (lat, lon)

/-- Scanner for one half of the quoted DDM pattern:
`([NS])\s*(\d+)[°\s]+(\d+\.?\d*)['\s]+`, converted by
`degrees + minutes/60` and negated for S/W.  Note the required
trailing `['\s]+`, also after the longitude half. -/
def matchDDMHalf (isLat : Bool) (cs : List Char) : Option (ℚ × List Char) := do
  let (neg, cs) ← if isLat then matchNS cs else matchEW cs
  let cs := cs.dropWhile pyIsSpace
  let (deg, cs) ← takeNat cs
  let cs ← plusRun isDegSp cs
  let (mins, cs) ← takeUDec cs
  let cs ← plusRun isDdmMark cs
  let v : ℚ := (deg : ℚ) + mins / 60
  some (if neg then -v else v, cs)

/-- Scanner for the whole quoted DDM pattern. -/
def matchDDMAt (cs : List Char) : Option (ℚ × ℚ) := do
  let (lat, cs) ← matchDDMHalf true cs
  let (lon, _) ← matchDDMHalf false cs
  some (lat, lon)

/-- Scanner for one half of the apostrophe-free DDM pattern:
`([NS])\s*(\d+)[°\s]+(\d+\.?\d*)`. -/
def matchAltDDMHalf (isLat : Bool) (cs : List Char) : Option (ℚ × List Char) := do
  let (neg, cs) ← if isLat then matchNS cs else matchEW cs
  let cs := cs.dropWhile pyIsSpace
  let (deg, cs) ← takeNat cs
  let cs ← plusRun isDegSp cs
  let (mins, cs) ← takeUDec cs
  let v : ℚ := (deg : ℚ) + mins / 60
  some (if neg then -v else v, cs)

/-- Scanner for the whole apostrophe-free DDM pattern, the halves
joined by a required `\s+`. -/
def matchAltDDMAt (cs : List Char) : Option (ℚ × ℚ) := do
  let (lat, cs) ← matchAltDDMHalf true cs
  let cs ← plusRun pyIsSpace cs
  let (lon, _) ← matchAltDDMHalf false cs
  some (lat, lon)

/-- Embedding of `parse_coordinate` (coordinates.py lines 8–75): the
four grammars are tried in the source's fixed order, each as a
substring search; if none matches, `ValueError` is raised. -/
def parse_coordinate (cs : List Char) : Except PyErr (ℚ × ℚ) :=
  match searchWith matchDecPairAt cs with
  | some (a, b) => .ok (a, b)
  | none =>
  match searchWith matchDMSAt cs with
  | some r => .ok r
  | none =>
  match searchWith matchDDMAt cs with
  | some r => .ok r
  | none =>
  match searchWith matchAltDDMAt cs with
  | some r => .ok r
  | none => .error .valueError

/-- Round-half-even (banker's rounding), the rounding CPython's fixed
precision float formatting applies, on exact rationals. -/
def roundHalfEven (q : ℚ) : ℤ :=
  let f := ⌊q⌋
  if q - f < 1 / 2 then f
  else if 1 / 2 < q - f then f + 1
  else if Even f then f else f + 1

/-- Digit string of `k` left-padded with zeros to `p` characters. -/
def padDigits (p : ℕ) (k : ℕ) : List Char :=
  List.replicate (p - (natDigits k).length) '0' ++ natDigits k

/-- Python's fixed-point formatting of a float to `p` fractional
digits (the f-string conversion `:.pf`): round half-to-even at the
`p`-th fractional digit, then print sign, integer digits, a point and
exactly `p` fraction digits. -/
def formatFixed (p : ℕ) (q : ℚ) : List Char :=
  let m := roundHalfEven (q * 10 ^ p)
  let n := m.natAbs
  (if m < 0 then ['-'] else []) ++
    natDigits (n / 10 ^ p) ++ '.' :: padDigits p (n % 10 ^ p)

/-- Embedding of `format_coordinate` (coordinates.py lines 78–117). -/
def format_coordinate (latitude longitude : ℚ) (fmt : String) : Except PyErr (List Char) :=
  if fmt = "decimal" then
    .ok (formatFixed 6 latitude ++ ',' :: ' ' :: formatFixed 6 longitude)
  else
  let lat_dir := if 0 ≤ latitude then 'N' else 'S'
  let lon_dir := if 0 ≤ longitude then 'E' else 'W'
  let lat_abs := |latitude|
  let lon_abs := |longitude|
  -- int() truncates toward zero; the arguments here are nonnegative
  let lat_deg : ℕ := (⌊lat_abs⌋).toNat
  let lon_deg : ℕ := (⌊lon_abs⌋).toNat
  if fmt = "ddm" then
    let lat_min := (lat_abs - lat_deg) * 60
    let lon_min := (lon_abs - lon_deg) * 60
    .ok ([lat_dir, ' '] ++ natDigits lat_deg ++ ['°', ' '] ++ formatFixed 3 lat_min ++
      [apos, ' ', lon_dir, ' '] ++ natDigits lon_deg ++ ['°', ' '] ++ formatFixed 3 lon_min ++ [apos])
  else if fmt = "dms" then
    let lat_min : ℕ := (⌊(lat_abs - lat_deg) * 60⌋).toNat
    let lon_min : ℕ := (⌊(lon_abs - lon_deg) * 60⌋).toNat
    let lat_sec := ((lat_abs - lat_deg) * 60 - lat_min) * 60
    let lon_sec := ((lon_abs - lon_deg) * 60 - lon_min) * 60
    .ok ([lat_dir, ' '] ++ natDigits lat_deg ++ ['°', ' '] ++ natDigits lat_min ++ [apos, ' '] ++
      formatFixed 3 lat_sec ++ [quot, ' ', lon_dir, ' '] ++ natDigits lon_deg ++ ['°', ' '] ++
      natDigits lon_min ++ [apos, ' '] ++ formatFixed 3 lon_sec ++ [quot])
  else .error .valueError

/-- Python's `math.isclose(a, b, rel_tol, abs_tol)`:
`abs(a-b) <= max(rel_tol * max(abs(a), abs(b)), abs_tol)`.
The default `rel_tol` is `1e-09`. -/
def mathIsClose (a b relTol absTol : ℚ) : Bool :=
  |a - b| ≤ max (relTol * max |a| |b|) absTol

/-- Embedding of `circumcenter` (geometry.py lines 13–56): raise
`ValueError` (the collinear-points error) when `math.isclose` finds
the unsigned triangle area within `1e-10` of zero, otherwise return
the closed-form planar circumcenter. -/
def circumcenter (point1 point2 point3 : ℚ × ℚ) : Except PyErr (ℚ × ℚ) :=
  let (x1, y1) := point1
  let (x2, y2) := point2
  let (x3, y3) := point3
  let area := (1 / 2 : ℚ) * |x1 * (y2 - y3) + x2 * (y3 - y1) + x3 * (y1 - y2)|
  if mathIsClose area 0 (1 / 10 ^ 9) (1 / 10 ^ 10) then .error .valueError
  else
    let d := 2 * (x1 * (y2 - y3) + x2 * (y3 - y1) + x3 * (y1 - y2))
    let ux := ((x1 ^ 2 + y1 ^ 2) * (y2 - y3) + (x2 ^ 2 + y2 ^ 2) * (y3 - y1) +
      (x3 ^ 2 + y3 ^ 2) * (y1 - y2)) / d
    let uy := ((x1 ^ 2 + y1 ^ 2) * (x3 - x2) + (x2 ^ 2 + y2 ^ 2) * (x1 - x3) +
      (x3 ^ 2 + y3 ^ 2) * (x2 - x1)) / d
    .ok (ux, uy)

/-- Twice-signed-area expression shared by the collinearity checks:
`x1 (y2 − y3) + x2 (y3 − y1) + x3 (y1 − y2)`; the points are collinear
exactly when it is zero, and the signed triangle area is half of it. -/
def signedArea2 (point1 point2 point3 : ℚ × ℚ) : ℚ :=
  point1.1 * (point2.2 - point3.2) + point2.1 * (point3.2 - point1.2) +
    point3.1 * (point1.2 - point2.2)

/-- Python float values as they occur in `orthocenter`: exact finite
values (no rounding is modelled) together with the IEEE special values
`inf`, `-inf` and `nan` that `float('inf')` arithmetic produces. -/
inductive V where
  | fin (q : ℚ) : V
  | inf : V
  | ninf : V
  | nan : V
deriving DecidableEq

/-- IEEE addition on the special values, exact on finite ones. -/
def V.add : V → V → V
  | nan, _ => nan
  | _, nan => nan
  | inf, ninf => nan
  | ninf, inf => nan
  | inf, _ => inf
  | _, inf => inf
  | ninf, _ => ninf
  | _, ninf => ninf
  | fin a, fin b => fin (a + b)

/-- IEEE negation. -/
def V.neg : V → V
  | fin q => fin (-q)
  | inf => ninf
  | ninf => inf
  | nan => nan

/-- IEEE subtraction, `a - b = a + (-b)` (also for the special values). -/
def V.sub (a b : V) : V := a.add b.neg

/-- IEEE multiplication on the special values, exact on finite ones
(`inf * 0` is `nan`). -/
def V.mul : V → V → V
  | nan, _ => nan
  | _, nan => nan
  | inf, inf => inf
  | inf, ninf => ninf
  | ninf, inf => ninf
  | ninf, ninf => inf
  | inf, fin q => if 0 < q then inf else if q < 0 then ninf else nan
  | fin q, inf => if 0 < q then inf else if q < 0 then ninf else nan
  | ninf, fin q => if 0 < q then ninf else if q < 0 then inf else nan
  | fin q, ninf => if 0 < q then ninf else if q < 0 then inf else nan
  | fin a, fin b => fin (a * b)

/-- Python float division: a zero divisor raises ZeroDivisionError
(Python raises even for `inf/0.0` and `nan/0.0`); otherwise IEEE rules:
`nan` propagates, a finite value over an infinity is zero, an infinity
over an infinity is `nan`, an infinity over a finite value keeps or
flips its sign. -/
def V.div (a b : V) : Except PyErr V :=
  if b = V.fin 0 then .error .zeroDivisionError
  else .ok (match a, b with
    | nan, _ => nan
    | _, nan => nan
    | fin _, inf => fin 0
    | fin _, ninf => fin 0
    | inf, inf => nan
    | inf, ninf => nan
    | ninf, inf => nan
    | ninf, ninf => nan
    | inf, fin q => if 0 < q then inf else ninf
    | ninf, fin q => if 0 < q then ninf else inf
    | fin x, fin y => fin (x / y))

/-- Embedding of `orthocenter` (geometry.py lines 209–290).  The three
altitude slopes are `0` when the opposite side is vertical,
`float('inf')` when it is horizontal (modelled by `V.inf`), otherwise
finite; the altitude feet `(x4,y4) … (x6,y6)` are computed exactly as
in the source (and, as in the source, never used afterwards); the
returned point is the intersection of the first two altitudes, which
can divide by zero or propagate the special values. -/
def orthocenter (point1 point2 point3 : ℚ × ℚ) : Except PyErr (V × V) := do
  let (x1, y1) := point1
  let (x2, y2) := point2
  let (x3, y3) := point3
  let m1 : V := if x2 = x3 then .fin 0
    else if y3 ≠ y2 then .fin (-(x3 - x2) / (y3 - y2)) else .inf
  let m2 : V := if x1 = x3 then .fin 0
    else if y1 ≠ y3 then .fin (-(x1 - x3) / (y1 - y3)) else .inf
  let m3 : V := if x1 = x2 then .fin 0
    else if y1 ≠ y2 then .fin (-(x1 - x2) / (y1 - y2)) else .inf
  let _x4y4 ← (if m1 = V.inf then pure (V.fin x1, V.fin y1) else do
    let y4 := V.fin y1
    let x4 ← if m1 ≠ V.fin 0 then do
        let t ← V.div (y4.sub (V.fin y1)) m1
        pure ((V.fin x1).add t)
      else pure (V.fin x1)
    pure (x4, y4))
  let _x5y5 ← (if m2 = V.inf then pure (V.fin x2, V.fin y2) else do
    let y5 := V.fin y2
    let x5 ← if m2 ≠ V.fin 0 then do
        let t ← V.div (y5.sub (V.fin y2)) m2
        pure ((V.fin x2).add t)
      else pure (V.fin x2)
    pure (x5, y5))
  let _x6y6 ← (if m3 = V.inf then pure (V.fin x3, V.fin y3) else do
    let y6 := V.fin y3
    let x6 ← if m3 ≠ V.fin 0 then do
        let t ← V.div (y6.sub (V.fin y3)) m3
        pure ((V.fin x3).add t)
      else pure (V.fin x3)
    pure (x6, y6))
  let b1 := (V.fin y1).sub (m1.mul (V.fin x1))
  let b2 := (V.fin y2).sub (m2.mul (V.fin x2))
  if m1 = V.inf then
    pure (V.fin x1, (m2.mul (V.fin x1)).add b2)
  else if m2 = V.inf then
    pure (V.fin x2, (m1.mul (V.fin x2)).add b1)
  else if m1 = V.fin 0 then do
    let y := V.fin y1
    let x ← if m2 ≠ V.fin 0 then V.div (y.sub b2) m2 else pure (V.fin x2)
    pure (x, y)
  else if m2 = V.fin 0 then do
    let y := V.fin y2
    let x ← if m1 ≠ V.fin 0 then V.div (y.sub b1) m1 else pure (V.fin x1)
    pure (x, y)
  else do
    let x ← V.div (b2.sub b1) (m1.sub m2)
    pure (x, (m1.mul x).add b1)

/-- Vertex list paired with its predecessor vertex: the pairs
`(polygon[i], polygon[j])` visited by the ray-casting loop, where `j`
starts at the last index and trails `i` by one. -/
def withPrev (poly : List (ℚ × ℚ)) : List ((ℚ × ℚ) × (ℚ × ℚ)) :=
  match poly with
  | [] => []
  | x :: xs => (x :: xs).zip ((x :: xs).getLastD (0, 0) :: (x :: xs).dropLast)

/-- One iteration of the ray-casting loop: the divisor `yj - yi` is
reached only when the guard `(yi > y) != (yj > y)` holds (Python's
`and` short-circuits); a zero divisor would raise ZeroDivisionError. -/
def polyStep (x y : ℚ) (inside : Bool) (e : (ℚ × ℚ) × (ℚ × ℚ)) : Except PyErr Bool :=
  let ((xi, yi), (xj, yj)) := e
  if (decide (yi > y)) ≠ (decide (yj > y)) then
    if yj - yi = 0 then .error .zeroDivisionError
    else .ok (if x < (xj - xi) * (y - yi) / (yj - yi) + xi then !inside else inside)
  else .ok inside

/-- Embedding of `is_point_inside_polygon` (geometry.py lines
144–175). -/
def is_point_inside_polygon (point : ℚ × ℚ) (polygon : List (ℚ × ℚ)) : Except PyErr Bool :=
  if polygon.length < 3 then .ok false
  else (withPrev polygon).foldlM (fun inside e => polyStep point.1 point.2 inside e) false

/-- Python's `math.radians`: degrees to radians. -/
noncomputable def radians (d : ℝ) : ℝ := d * Real.pi / 180

/-- Python's `math.atan2 y x` (the C convention, quadrant-aware). -/
noncomputable def atan2 (y x : ℝ) : ℝ :=
  if 0 < x then Real.arctan (y / x)
  else if x < 0 then
    (if 0 ≤ y then Real.arctan (y / x) + Real.pi else Real.arctan (y / x) - Real.pi)
  else
    (if 0 < y then Real.pi / 2 else if y < 0 then -(Real.pi / 2) else 0)

/-- The haversine great-circle distance in kilometers of
`distance` (coordinates.py lines 132–145), Earth radius 6371.0 km. -/
noncomputable def haversineKm (coord1 coord2 : ℝ × ℝ) : ℝ :=
  let lat1 := radians coord1.1
  let lon1 := radians coord1.2
  let lat2 := radians coord2.1
  let lon2 := radians coord2.2
  let dlon := lon2 - lon1
  let dlat := lat2 - lat1
  let a := Real.sin (dlat / 2) ^ 2 +
    Real.cos lat1 * Real.cos lat2 * Real.sin (dlon / 2) ^ 2
  let c := 2 * atan2 (Real.sqrt a) (Real.sqrt (1 - a))
  6371.0 * c

/-- Embedding of `distance` (coordinates.py lines 120–154): the
kilometer result scaled by the requested unit's fixed factor;
an unknown unit raises `ValueError`.  The same function is
`gc_utils.utils.coordinates.distance`, the import used by
geometry.py; that module is not among the staged sources and is
modelled from the spec's identical haversine description. -/
noncomputable def distance (coord1 coord2 : ℝ × ℝ) (unit : String) : Except PyErr ℝ :=
  let distance_km := haversineKm coord1 coord2
  if unit = "km" then .ok distance_km
  else if unit = "mi" then .ok (distance_km * 0.621371)
  else if unit = "nm" then .ok (distance_km * 0.539957)
  else .error .valueError

/-- Python's `unit.replace('²', '')`: drop every superscript-two. -/
def stripSquared (unit : String) : String := String.mk (unit.toList.filter (fun c => c ≠ '²'))

/-- Embedding of `triangle_area` (geometry.py lines 178–206):
Heron's formula over the three haversine side lengths.  The radicand
is passed to `math.sqrt` unclamped, so a negative radicand raises
`ValueError` (math domain error); over exact reals the haversine
distance satisfies the triangle inequality, but the source itself has
no clamp. -/
noncomputable def triangle_area (point1 point2 point3 : ℝ × ℝ) (unit : String) :
    Except PyErr ℝ := do
  let a ← distance point1 point2 (stripSquared unit)
  let b ← distance point2 point3 (stripSquared unit)
  let c ← distance point3 point1 (stripSquared unit)
  let s := (a + b + c) / 2
  let rad := s * (s - a) * (s - b) * (s - c)
  if rad < 0 then .error .valueError
  else pure (Real.sqrt rad)

/-- Twice-signed-area over the reals, for collinearity statements about
the real-valued geometry. -/
def signedArea2R (point1 point2 point3 : ℝ × ℝ) : ℝ :=
  point1.1 * (point2.2 - point3.2) + point2.1 * (point3.2 - point1.2) +
    point3.1 * (point1.2 - point2.2)

lemma area_isclose_iff (A : ℚ) (hA : 0 ≤ A) :
    (mathIsClose A 0 (1 / 10 ^ 9) (1 / 10 ^ 10) = true) ↔ A ≤ 1 / 10 ^ 10 := by
  unfold mathIsClose
  rw [decide_eq_true_eq, sub_zero, abs_zero, abs_of_nonneg hA, max_eq_left hA]
  constructor
  · intro h
    rcases le_max_iff.mp h with h' | h'
    · linarith
    · exact h'
  · intro h
    exact le_max_of_le_right h

/-- C5: circumcenter raises the collinear-points error exactly when the
absolute signed triangle area is within absolute tolerance 1e-10 of
zero; in particular it fails at the collinear points (0,0),(1,1),(2,2). -/
theorem circumcenter_collinear_iff :
    (∀ p1 p2 p3 : ℚ × ℚ,
      (circumcenter p1 p2 p3 = .error .valueError ↔ |signedArea2 p1 p2 p3 / 2| ≤ 1 / 10 ^ 10)) ∧
    circumcenter (0, 0) (1, 1) (2, 2) = .error .valueError := by
  constructor
  · rintro ⟨x1, y1⟩ ⟨x2, y2⟩ ⟨x3, y3⟩
    have habs : |signedArea2 (x1, y1) (x2, y2) (x3, y3) / 2| =
        (1 / 2 : ℚ) * |x1 * (y2 - y3) + x2 * (y3 - y1) + x3 * (y1 - y2)| := by
      unfold signedArea2
      rw [abs_div]
      rw [show |(2 : ℚ)| = 2 from abs_of_nonneg (by norm_num)]
      ring
    have hiff := area_isclose_iff
      ((1 / 2 : ℚ) * |x1 * (y2 - y3) + x2 * (y3 - y1) + x3 * (y1 - y2)|) (by positivity)
    simp only [circumcenter]
    split_ifs with h
    · rw [habs]
      exact iff_of_true rfl (hiff.mp h)
    · rw [habs]
      refine iff_of_false (fun hh => absurd hh (by simp)) (fun hh => h (hiff.mpr hh))
  · have hc : mathIsClose ((1 / 2 : ℚ) * |0 * (1 - 2) + 1 * (2 - 0) + 2 * (0 - 1)|) 0
        (1 / 10 ^ 9) (1 / 10 ^ 10) = true := by
      unfold mathIsClose
      rw [decide_eq_true_eq]
      norm_num
    simp only [circumcenter, hc]
    simp

/-- C6: for the right triangle (0,0),(0,2),(2,0) the planar
circumcenter closed form returns exactly (1,1), the midpoint of the
hypotenuse. -/
theorem circumcenter_right_triangle : circumcenter (0, 0) (0, 2) (2, 0) = .ok (1, 1) := by
  have hc : mathIsClose ((1 / 2 : ℚ) * |0 * (2 - 0) + 0 * (0 - 0) + 2 * (0 - 2)|) 0
      (1 / 10 ^ 9) (1 / 10 ^ 10) = false := by
    unfold mathIsClose
    rw [decide_eq_false_iff_not]
    norm_num
  simp only [circumcenter, hc]
  norm_num

/-- C7: the DDM string parses (through the apostrophe-free DDM
grammar) to 47 + 36.123/60 = 47.60205 exactly and −(122 + 19.456/60) =
−122.3242666…, each within 1e-4 of the spec's quoted values 47.60205
and −122.32427. -/
theorem parse_ddm_example :
    ∃ a b : ℚ, parse_coordinate "N 47° 36.123 W 122° 19.456".toList = .ok (a, b) ∧
      a = 952041 / 20000 ∧ b = -229358 / 1875 ∧
      |a - 4760205 / 10 ^ 5| ≤ 1 / 10 ^ 4 ∧ |b + 12232427 / 10 ^ 5| ≤ 1 / 10 ^ 4 := by
  obtain ⟨a, b, hab, ha, hb⟩ : ∃ a b : ℚ,
      parse_coordinate "N 47° 36.123 W 122° 19.456".toList = .ok (a, b) ∧
      a = 952041 / 20000 ∧ b = -229358 / 1875 := by
    refine ⟨_, _, rfl, ?_, ?_⟩
    · simp [natOfDigits, digitVal, List.foldl]
      norm_num
    · simp [natOfDigits, digitVal, List.foldl]
      norm_num
  exact ⟨a, b, hab, ha, hb, by rw [ha, abs_le]; constructor <;> norm_num, by rw [hb, abs_le]; constructor <;> norm_num⟩

lemma polyStep_ok (x y : ℚ) (i : Bool) (e : (ℚ × ℚ) × (ℚ × ℚ)) :
    ∃ b, polyStep x y i e = .ok b := by
  obtain ⟨⟨xi, yi⟩, xj, yj⟩ := e
  simp only [polyStep]
  by_cases h1 : decide (yi > y) ≠ decide (yj > y)
  · have hne : ¬(yj - yi = 0) := fun h2 => h1 (by rw [sub_eq_zero] at h2; rw [h2])
    rw [if_pos h1, if_neg hne]
    exact ⟨_, rfl⟩
  · rw [if_neg h1]
    exact ⟨_, rfl⟩

lemma foldl_polyStep_ok (x y : ℚ) :
    ∀ (l : List ((ℚ × ℚ) × (ℚ × ℚ))) (acc : Bool),
      ∃ b, l.foldlM (fun i e => polyStep x y i e) acc = .ok b
  | [], acc => ⟨acc, rfl⟩
  | e :: t, acc => by
    obtain ⟨b1, hb1⟩ := polyStep_ok x y acc e
    obtain ⟨b2, hb2⟩ := foldl_polyStep_ok x y t b1
    exact ⟨b2, by simp only [List.foldlM_cons, hb1]; exact hb2⟩

/-- C10: the ray-casting test never divides by zero — the divisor
`yj - yi` is reached only under the crossing guard, which forces
`yi ≠ yj` — so the function totally returns a boolean for every point
and every polygon. -/
theorem polygon_test_total (pt : ℚ × ℚ) (poly : List (ℚ × ℚ)) :
    ∃ b, is_point_inside_polygon pt poly = .ok b := by
  unfold is_point_inside_polygon
  split_ifs
  · exact ⟨false, rfl⟩
  · exact foldl_polyStep_ok pt.1 pt.2 (withPrev poly) false

lemma V.add_fin (a b : ℚ) : (V.fin a).add (V.fin b) = V.fin (a + b) := rfl

lemma V.sub_fin (a b : ℚ) : (V.fin a).sub (V.fin b) = V.fin (a - b) := by
  simp [V.sub, V.add, V.neg, sub_eq_add_neg]

lemma V.mul_fin (a b : ℚ) : (V.fin a).mul (V.fin b) = V.fin (a * b) := rfl

lemma V.div_fin (a b : ℚ) (hb : b ≠ 0) : (V.fin a).div (V.fin b) = .ok (V.fin (a / b)) := by
  simp [V.div, hb]

lemma V.div_zero (a : V) : a.div (V.fin 0) = .error .zeroDivisionError := by
  simp [V.div]

lemma V.fin_eq_inf_iff (a : ℚ) : (V.fin a = V.inf) = False := by simp

lemma exc_ok_bind {α β : Type} (a : α) (f : α → Except PyErr β) :
    (Except.ok a >>= f) = f a := rfl

lemma exc_error_bind {α β : Type} (e : PyErr) (f : α → Except PyErr β) :
    (Except.error e >>= f) = .error e := rfl

lemma exc_pure_eq_ok {α : Type} (a : α) : (pure a : Except PyErr α) = .ok a := rfl

lemma noVE_div (a b : V) : V.div a b ≠ .error .valueError := by
  unfold V.div
  split_ifs
  · simp
  · simp

lemma noVE_pure {α : Type} (a : α) : (pure a : Except PyErr α) ≠ .error .valueError := by
  simp [pure, Except.pure]

lemma noVE_bind {α β : Type} {x : Except PyErr α} {f : α → Except PyErr β}
    (hx : x ≠ .error .valueError) (hf : ∀ a, f a ≠ .error .valueError) :
    (x >>= f) ≠ .error .valueError := by
  cases x with
  | ok a => simpa [Bind.bind, Except.bind] using hf a
  | error e =>
    simp only [Bind.bind, Except.bind]
    simpa using hx

lemma noVE_ite {α : Type} (c : Prop) [Decidable c] {x y : Except PyErr α}
    (hx : x ≠ .error .valueError) (hy : y ≠ .error .valueError) :
    (if c then x else y) ≠ .error .valueError := by
  split_ifs <;> assumption

/-- C4 counterexample: for the vertical-line collinear points
(0,0),(0,1),(0,2) orthocenter neither raises any error nor produces
inf/NaN: all three altitude slopes take the vertical-side branch
(slope 0), and the function silently returns the finite point (0,0).
This refutes the claim that collinear inputs always divide by zero or
propagate inf/NaN. -/
theorem orthocenter_collinear_vertical_ok :
    orthocenter (0, 0) (0, 1) (0, 2) = .ok (.fin 0, .fin 0) ∧
    signedArea2 (0, 0) (0, 1) (0, 2) = 0 := by
  constructor
  · rfl
  · norm_num [signedArea2]

/-- C4 (amended): orthocenter performs no collinearity check — no
input can produce the collinear-points `ValueError` — and for
collinear inputs whose y-coordinates are pairwise distinct and which
do not all lie on one vertical line, the intersection of the first
two altitudes divides by zero (`ZeroDivisionError`).  (Vertical-line
collinear inputs instead return a finite point, see the
counterexample.) -/
theorem orthocenter_no_collinear_check :
    (∀ p1 p2 p3 : ℚ × ℚ, orthocenter p1 p2 p3 ≠ .error .valueError) ∧
    (∀ p1 p2 p3 : ℚ × ℚ, signedArea2 p1 p2 p3 = 0 →
      p1.2 ≠ p2.2 → p1.2 ≠ p3.2 → p2.2 ≠ p3.2 → ¬(p1.1 = p2.1 ∧ p2.1 = p3.1) →
      orthocenter p1 p2 p3 = .error .zeroDivisionError) := by
  constructor
  · rintro ⟨x1, y1⟩ ⟨x2, y2⟩ ⟨x3, y3⟩
    simp only [orthocenter]
    repeat'
      first
      | exact noVE_div _ _
      | exact noVE_pure _
      | apply noVE_bind
      | apply noVE_ite
      | intro a
  · rintro ⟨x1, y1⟩ ⟨x2, y2⟩ ⟨x3, y3⟩ hcol h12 h13 h23 hvert
    simp only [signedArea2] at hcol
    simp only at h12 h13 h23 hvert
    have hx23 : x2 ≠ x3 := by
      intro h
      have hz : (x1 - x2) * (y2 - y3) = 0 := by linear_combination hcol + (y1 - y2) * h
      rcases mul_eq_zero.mp hz with hz | hz
      · exact hvert ⟨by linarith, h⟩
      · exact h23 (by linarith)
    have hx13 : x1 ≠ x3 := by
      intro h
      have hz : (x1 - x2) * (y1 - y3) = 0 := by linear_combination hcol - (y2 - y1) * h
      rcases mul_eq_zero.mp hz with hz | hz
      · exact hvert ⟨by linarith, by linarith⟩
      · exact h13 (by linarith)
    have hx12 : x1 ≠ x2 := by
      intro h
      have hz : (x1 - x3) * (y2 - y1) = 0 := by linear_combination hcol + (y3 - y1) * h
      rcases mul_eq_zero.mp hz with hz | hz
      · exact hx13 (by linarith)
      · exact h12 (by linarith)
    have hq12 : -(x3 - x2) / (y3 - y2) = -(x1 - x3) / (y1 - y3) := by
      rw [div_eq_div_iff (sub_ne_zero.mpr (Ne.symm h23)) (sub_ne_zero.mpr h13)]
      linear_combination -hcol
    have hm1 : (if x2 = x3 then V.fin 0
        else if y3 ≠ y2 then V.fin (-(x3 - x2) / (y3 - y2)) else V.inf) =
        V.fin (-(x3 - x2) / (y3 - y2)) := by
      rw [if_neg hx23, if_pos (Ne.symm h23)]
    have hm2 : (if x1 = x3 then V.fin 0
        else if y1 ≠ y3 then V.fin (-(x1 - x3) / (y1 - y3)) else V.inf) =
        V.fin (-(x3 - x2) / (y3 - y2)) := by
      rw [if_neg hx13, if_pos h13, hq12]
    have hm3 : (if x1 = x2 then V.fin 0
        else if y1 ≠ y2 then V.fin (-(x1 - x2) / (y1 - y2)) else V.inf) =
        V.fin (-(x1 - x2) / (y1 - y2)) := by
      rw [if_neg hx12, if_pos h12]
    have hq1 : -(x3 - x2) / (y3 - y2) ≠ 0 :=
      div_ne_zero (neg_ne_zero.mpr (sub_ne_zero.mpr (Ne.symm hx23)))
        (sub_ne_zero.mpr (Ne.symm h23))
    have hq3 : -(x1 - x2) / (y1 - y2) ≠ 0 :=
      div_ne_zero (neg_ne_zero.mpr (sub_ne_zero.mpr hx12)) (sub_ne_zero.mpr h12)
    have hd1 : (V.fin 0).div (V.fin (-(x3 - x2) / (y3 - y2))) = .ok (V.fin 0) := by
      rw [V.div_fin _ _ hq1, zero_div]
    have hd3 : (V.fin 0).div (V.fin (-(x1 - x2) / (y1 - y2))) = .ok (V.fin 0) := by
      rw [V.div_fin _ _ hq3, zero_div]
    simp only [orthocenter, hm1, hm2, hm3]
    simp only [V.fin_eq_inf_iff, ne_eq, V.fin.injEq, hq1, hq3, if_false, ite_false, ite_true,
      not_false_eq_true, if_true, sub_self, hd1, hd3, V.sub_fin, V.add_fin, V.mul_fin,
      exc_ok_bind, exc_error_bind, exc_pure_eq_ok, V.div_zero]

/-- C4 witness: the amended theorem applied at the concrete collinear
points (0,0),(1,1),(2,2), where the division by zero occurs. -/
theorem orthocenter_no_collinear_check_witness :
    orthocenter (0, 0) (1, 1) (2, 2) = .error .zeroDivisionError :=
  orthocenter_no_collinear_check.2 (0, 0) (1, 1) (2, 2)
    (by norm_num [signedArea2]) (by norm_num) (by norm_num) (by norm_num) (by norm_num)

lemma haversineKm_symm (a b : ℝ × ℝ) : haversineKm a b = haversineKm b a := by
  have h : ∀ u v : ℝ, Real.sin ((u - v) / 2) ^ 2 = Real.sin ((v - u) / 2) ^ 2 := by
    intro u v
    rw [show (u - v) / 2 = -((v - u) / 2) by ring, Real.sin_neg]
    ring
  simp only [haversineKm]
  rw [h (radians b.1) (radians a.1), h (radians b.2) (radians a.2),
    mul_comm (Real.cos (radians a.1)) (Real.cos (radians b.1))]

/-- C8: distance is symmetric in its two coordinate arguments, for
every unit string (the haversine expression is invariant under
swapping the endpoints). -/
theorem distance_symm (a b : ℝ × ℝ) (unit : String) : distance a b unit = distance b a unit := by
  unfold distance
  rw [haversineKm_symm]

/-- C9: the miles result is exactly the kilometers result scaled by
the fixed factor 0.621371. -/
theorem distance_mi_factor (a b : ℝ × ℝ) :
    ∃ dkm, distance a b "km" = .ok dkm ∧ distance a b "mi" = .ok (dkm * 0.621371) := by
  refine ⟨haversineKm a b, ?_, ?_⟩
  · unfold distance
    rw [if_pos rfl]
  · unfold distance
    rw [if_neg (by decide), if_pos rfl]

lemma atan2_sin_cos {t : ℝ} (h0 : 0 ≤ t) (h2 : t ≤ Real.pi / 2) :
    atan2 (Real.sin t) (Real.cos t) = t := by
  rcases lt_or_eq_of_le h2 with hlt | heq
  · have hcos : 0 < Real.cos t :=
      Real.cos_pos_of_mem_Ioo ⟨by linarith [Real.pi_pos], hlt⟩
    unfold atan2
    rw [if_pos hcos, ← Real.tan_eq_sin_div_cos]
    exact Real.arctan_tan (by linarith [Real.pi_pos]) hlt
  · rw [heq, Real.sin_pi_div_two, Real.cos_pi_div_two]
    unfold atan2
    norm_num

lemma abs_sin_eq {t : ℝ} (h : |t| ≤ Real.pi / 2) : |Real.sin t| = Real.sin |t| := by
  have hpi := Real.pi_pos
  rcases le_or_lt 0 t with hge | hlt
  · rw [abs_of_nonneg hge]
    rw [abs_of_nonneg (Real.sin_nonneg_of_nonneg_of_le_pi hge
      (by rw [abs_of_nonneg hge] at h; linarith))]
  · rw [abs_of_neg hlt]
    rw [show Real.sin t = -Real.sin (-t) by rw [Real.sin_neg]; ring, abs_neg]
    rw [abs_of_nonneg (Real.sin_nonneg_of_nonneg_of_le_pi (by linarith)
      (by rw [abs_of_neg hlt] at h; linarith))]

lemma meridian_hav (latA latB lon : ℝ) (h : |latB - latA| ≤ 180) :
    haversineKm (latA, lon) (latB, lon) = 6371 * (Real.pi * |latB - latA| / 180) := by
  have hpi := Real.pi_pos
  have habs : |(latB - latA) * Real.pi / 360| = |latB - latA| * Real.pi / 360 := by
    rw [abs_div, abs_mul, abs_of_pos hpi]
    norm_num
  have hbound : |(latB - latA) * Real.pi / 360| ≤ Real.pi / 2 := by
    rw [habs]
    rw [div_le_div_iff₀ (by norm_num) (by norm_num)]
    nlinarith [abs_nonneg (latB - latA)]
  simp only [haversineKm, radians]
  rw [sub_self, zero_div, Real.sin_zero]
  rw [show (0:ℝ) ^ 2 = 0 by norm_num, mul_zero, add_zero]
  rw [show (latB * Real.pi / 180 - latA * Real.pi / 180) / 2 = (latB - latA) * Real.pi / 360 by ring]
  rw [Real.sqrt_sq_eq_abs, abs_sin_eq hbound]
  rw [show (1:ℝ) - Real.sin ((latB - latA) * Real.pi / 360) ^ 2 =
    Real.cos ((latB - latA) * Real.pi / 360) ^ 2 by
      rw [← Real.sin_sq_add_cos_sq ((latB - latA) * Real.pi / 360)]; ring]
  rw [Real.sqrt_sq_eq_abs]
  rw [show |Real.cos ((latB - latA) * Real.pi / 360)| =
      Real.cos |(latB - latA) * Real.pi / 360| by
    rw [Real.cos_abs, abs_of_nonneg (Real.cos_nonneg_of_mem_Icc
      ⟨by rw [← abs_neg] at hbound; nlinarith [neg_abs_le ((latB - latA) * Real.pi / 360)],
       by nlinarith [le_abs_self ((latB - latA) * Real.pi / 360)]⟩)]]
  rw [atan2_sin_cos (abs_nonneg _) hbound, habs]
  ring

/-- C3 (amended): for collinear points on a common meridian (equal
longitudes, latitudes within [-90, 90] listed in monotone order) the
three haversine side lengths are exactly additive, the Heron radicand
is exactly zero and triangle_area succeeds with area 0.  (General
planar-collinear triples can return large positive areas, see the
counterexample; and the source has no clamp — a negative radicand
would raise ValueError from math.sqrt.) -/
theorem triangle_area_meridian_zero :
    ∀ lat1 lat2 lat3 lon : ℝ, -90 ≤ lat1 → lat1 ≤ lat2 → lat2 ≤ lat3 → lat3 ≤ 90 →
      signedArea2R (lat1, lon) (lat2, lon) (lat3, lon) = 0 ∧
      triangle_area (lat1, lon) (lat2, lon) (lat3, lon) "km²" = .ok 0 := by
  intro lat1 lat2 lat3 lon hb1 h12 h23 hb3
  constructor
  · simp only [signedArea2R]
    ring
  · have hstrip : stripSquared "km²" = "km" := rfl
    have hd12 : distance (lat1, lon) (lat2, lon) "km" = .ok (6371 * (Real.pi * (lat2 - lat1) / 180)) := by
      unfold distance
      rw [if_pos rfl, meridian_hav _ _ _ (by rw [abs_of_nonneg (by linarith)]; linarith),
        abs_of_nonneg (by linarith)]
    have hd23 : distance (lat2, lon) (lat3, lon) "km" = .ok (6371 * (Real.pi * (lat3 - lat2) / 180)) := by
      unfold distance
      rw [if_pos rfl, meridian_hav _ _ _ (by rw [abs_of_nonneg (by linarith)]; linarith),
        abs_of_nonneg (by linarith)]
    have hd31 : distance (lat3, lon) (lat1, lon) "km" = .ok (6371 * (Real.pi * (lat3 - lat1) / 180)) := by
      unfold distance
      rw [if_pos rfl, meridian_hav _ _ _ (by rw [abs_sub_comm, abs_of_nonneg (by linarith)]; linarith),
        abs_sub_comm, abs_of_nonneg (by linarith)]
    have key : ∀ a b c : ℝ, c = a + b →
        (if (a+b+c)/2 * ((a+b+c)/2 - a) * ((a+b+c)/2 - b) * ((a+b+c)/2 - c) < 0
         then (Except.error PyErr.valueError : Except PyErr ℝ)
         else pure (Real.sqrt ((a+b+c)/2 * ((a+b+c)/2 - a) * ((a+b+c)/2 - b) * ((a+b+c)/2 - c)))) =
        .ok 0 := by
      intro a b c h
      have hz : (a+b+c)/2 * ((a+b+c)/2 - a) * ((a+b+c)/2 - b) * ((a+b+c)/2 - c) = 0 := by
        rw [h]; ring
      rw [if_neg (by rw [hz]; exact lt_irrefl 0), hz, Real.sqrt_zero]
      rfl
    simp only [triangle_area, hstrip, hd12, hd23, hd31, exc_ok_bind]
    exact key _ _ _ (by ring)

lemma sqrt2_sq : Real.sqrt 2 ^ 2 = 2 := Real.sq_sqrt (by norm_num)

lemma hav001 : haversineKm ((0:ℝ), (0:ℝ)) (45, 45) = 6371 * (2 * (Real.pi / 6)) := by
  have hpi := Real.pi_pos
  simp only [haversineKm, radians]
  rw [show ((45:ℝ) * Real.pi / 180 - 0 * Real.pi / 180) / 2 = Real.pi / 8 by ring]
  rw [show (0:ℝ) * Real.pi / 180 = 0 by ring]
  rw [show (45:ℝ) * Real.pi / 180 = Real.pi / 4 by ring]
  have ha : Real.sin (Real.pi / 8) ^ 2 + Real.cos 0 * Real.cos (Real.pi / 4) * Real.sin (Real.pi / 8) ^ 2
      = 1 / 4 := by
    rw [Real.cos_zero, Real.cos_pi_div_four, Real.sin_pi_div_eight]
    have h2 : Real.sqrt 2 ≤ 2 := by
      nlinarith [sqrt2_sq, Real.sqrt_nonneg 2]
    rw [div_pow, Real.sq_sqrt (by linarith : (0:ℝ) ≤ 2 - Real.sqrt 2)]
    linear_combination (-1 / 8 : ℝ) * sqrt2_sq
  rw [ha]
  rw [show (1:ℝ)/4 = Real.sin (Real.pi / 6) ^ 2 by rw [Real.sin_pi_div_six]; norm_num]
  rw [Real.sqrt_sq_eq_abs, abs_of_nonneg (Real.sin_nonneg_of_nonneg_of_le_pi (by linarith) (by linarith))]
  rw [show (1:ℝ) - Real.sin (Real.pi / 6) ^ 2 = Real.cos (Real.pi / 6) ^ 2 by
    rw [← Real.sin_sq_add_cos_sq (Real.pi / 6)]; ring]
  rw [Real.sqrt_sq_eq_abs, abs_of_nonneg (by
    have := Real.cos_pi_div_six
    nlinarith [Real.sqrt_nonneg 3])]
  rw [atan2_sin_cos (by linarith) (by linarith)]
  norm_num

lemma hav452 : haversineKm ((45:ℝ), (45:ℝ)) (90, 90) = 6371 * (2 * (Real.pi / 8)) := by
  have hpi := Real.pi_pos
  simp only [haversineKm, radians]
  rw [show ((90:ℝ) * Real.pi / 180 - 45 * Real.pi / 180) / 2 = Real.pi / 8 by ring]
  rw [show (90:ℝ) * Real.pi / 180 = Real.pi / 2 by ring, Real.cos_pi_div_two, mul_zero, zero_mul, add_zero]
  rw [Real.sqrt_sq_eq_abs, abs_of_nonneg (Real.sin_nonneg_of_nonneg_of_le_pi (by linarith) (by linarith))]
  rw [show (1:ℝ) - Real.sin (Real.pi / 8) ^ 2 = Real.cos (Real.pi / 8) ^ 2 by
    rw [← Real.sin_sq_add_cos_sq (Real.pi / 8)]; ring]
  rw [Real.sqrt_sq_eq_abs, abs_of_nonneg (Real.cos_nonneg_of_mem_Icc ⟨by linarith, by linarith⟩)]
  rw [atan2_sin_cos (by linarith) (by linarith)]
  norm_num

lemma hav900 : haversineKm ((90:ℝ), (90:ℝ)) (0, 0) = 6371 * (2 * (Real.pi / 4)) := by
  have hpi := Real.pi_pos
  simp only [haversineKm, radians]
  rw [show ((0:ℝ) * Real.pi / 180 - 90 * Real.pi / 180) / 2 = -(Real.pi / 4) by ring]
  rw [show (90:ℝ) * Real.pi / 180 = Real.pi / 2 by ring, Real.cos_pi_div_two, zero_mul, zero_mul, add_zero]
  rw [Real.sin_neg]
  rw [show (-Real.sin (Real.pi / 4)) ^ 2 = Real.sin (Real.pi / 4) ^ 2 by ring]
  rw [Real.sqrt_sq_eq_abs, abs_of_nonneg (Real.sin_nonneg_of_nonneg_of_le_pi (by linarith) (by linarith))]
  rw [show (1:ℝ) - Real.sin (Real.pi / 4) ^ 2 = Real.cos (Real.pi / 4) ^ 2 by
    rw [← Real.sin_sq_add_cos_sq (Real.pi / 4)]; ring]
  rw [Real.sqrt_sq_eq_abs, abs_of_nonneg (Real.cos_nonneg_of_mem_Icc ⟨by linarith, by linarith⟩)]
  rw [atan2_sin_cos (by linarith) (by linarith)]
  norm_num

/-- C3 counterexample: the points (0,0),(45,45),(90,90) are collinear
in the latitude/longitude plane, yet triangle_area succeeds with an
area greater than 1 (in exact arithmetic the sides are 6371π/3,
6371π/4 and 6371π/2 km, which satisfy the strict triangle inequality
on the sphere), refuting the claim that collinear inputs yield area
approximately zero. -/
theorem triangle_area_collinear_large :
    signedArea2R (0, 0) (45, 45) (90, 90) = 0 ∧
    ∃ A : ℝ, triangle_area ((0:ℝ), (0:ℝ)) (45, 45) (90, 90) "km²" = .ok A ∧ 1 < A := by
  have hpi3 := Real.pi_gt_three
  have hpi := Real.pi_pos
  constructor
  · norm_num [signedArea2R]
  · have hstrip : stripSquared "km²" = "km" := rfl
    have h1 : distance ((0:ℝ), (0:ℝ)) (45, 45) "km" = .ok (6371 * (2 * (Real.pi / 6))) := by
      unfold distance
      rw [if_pos rfl, hav001]
    have h2 : distance ((45:ℝ), (45:ℝ)) (90, 90) "km" = .ok (6371 * (2 * (Real.pi / 8))) := by
      unfold distance
      rw [if_pos rfl, hav452]
    have h3 : distance ((90:ℝ), (90:ℝ)) (0, 0) "km" = .ok (6371 * (2 * (Real.pi / 4))) := by
      unfold distance
      rw [if_pos rfl, hav900]
    have heron_sqrt : ∀ a b c : ℝ,
        0 ≤ (a+b+c)/2 * ((a+b+c)/2 - a) * ((a+b+c)/2 - b) * ((a+b+c)/2 - c) →
        (if (a+b+c)/2 * ((a+b+c)/2 - a) * ((a+b+c)/2 - b) * ((a+b+c)/2 - c) < 0
         then (Except.error PyErr.valueError : Except PyErr ℝ)
         else pure (Real.sqrt ((a+b+c)/2 * ((a+b+c)/2 - a) * ((a+b+c)/2 - b) * ((a+b+c)/2 - c)))) =
        .ok (Real.sqrt ((a+b+c)/2 * ((a+b+c)/2 - a) * ((a+b+c)/2 - b) * ((a+b+c)/2 - c))) := by
      intro a b c h
      rw [if_neg (not_lt.mpr h)]
      rfl
    have hval : ((6371 * (2 * (Real.pi / 6)) + 6371 * (2 * (Real.pi / 8)) + 6371 * (2 * (Real.pi / 4)))/2)
        * (((6371 * (2 * (Real.pi / 6)) + 6371 * (2 * (Real.pi / 8)) + 6371 * (2 * (Real.pi / 4)))/2)
            - 6371 * (2 * (Real.pi / 6)))
        * (((6371 * (2 * (Real.pi / 6)) + 6371 * (2 * (Real.pi / 8)) + 6371 * (2 * (Real.pi / 4)))/2)
            - 6371 * (2 * (Real.pi / 8)))
        * (((6371 * (2 * (Real.pi / 6)) + 6371 * (2 * (Real.pi / 8)) + 6371 * (2 * (Real.pi / 4)))/2)
            - 6371 * (2 * (Real.pi / 4)))
        = (6371 * Real.pi) ^ 4 * 455 / 331776 := by
      ring
    have hpos : (0:ℝ) ≤ (6371 * Real.pi) ^ 4 * 455 / 331776 := by positivity
    have heq : triangle_area ((0:ℝ), (0:ℝ)) (45, 45) (90, 90) "km²" =
        .ok (Real.sqrt ((6371 * Real.pi) ^ 4 * 455 / 331776)) := by
      simp only [triangle_area, hstrip, h1, h2, h3, exc_ok_bind]
      rw [hval, if_neg (not_lt.mpr hpos)]
      rfl
    have h6 : (6:ℝ) < 6371 * Real.pi := by nlinarith
    have h64 : (6:ℝ) ^ 4 < (6371 * Real.pi) ^ 4 :=
      pow_lt_pow_left₀ h6 (by norm_num) (by norm_num)
    have hgt : 1 < Real.sqrt ((6371 * Real.pi) ^ 4 * 455 / 331776) := by
      rw [show (1:ℝ) = 1 ^ 2 by norm_num]
      refine (Real.lt_sqrt (by norm_num)).mpr ?_
      nlinarith [h64]
    exact ⟨_, heq, hgt⟩

/-- C3 witness: the amended theorem applied at the meridian points
(0,5),(10,5),(20,5). -/
theorem triangle_area_meridian_zero_witness :
    signedArea2R ((0:ℝ), 5) (10, 5) (20, 5) = 0 ∧
    triangle_area ((0:ℝ), 5) (10, 5) (20, 5) "km²" = .ok 0 :=
  triangle_area_meridian_zero 0 10 20 5 (by norm_num) (by norm_num) (by norm_num) (by norm_num)

lemma takeWhile_append_all (p : Char → Bool) (a b : List Char)
    (ha : ∀ c ∈ a, p c = true) : (a ++ b).takeWhile p = a ++ b.takeWhile p := by
  induction a with
  | nil => simp
  | cons c t ih =>
    rw [List.cons_append, List.takeWhile_cons, if_pos (ha c (by simp)),
      ih (fun x hx => ha x (by simp [hx])), List.cons_append]

lemma dropWhile_append_all (p : Char → Bool) (a b : List Char)
    (ha : ∀ c ∈ a, p c = true) : (a ++ b).dropWhile p = b.dropWhile p := by
  induction a with
  | nil => simp
  | cons c t ih =>
    rw [List.cons_append, List.dropWhile_cons, if_pos (ha c (by simp))]
    exact ih (fun x hx => ha x (by simp [hx]))

lemma takeWhile_head_false (p : Char → Bool) (b : List Char)
    (hb : ∀ c, b.head? = some c → p c = false) : b.takeWhile p = [] := by
  cases b with
  | nil => rfl
  | cons c t => simp [List.takeWhile_cons, hb c rfl]

lemma dropWhile_head_false (p : Char → Bool) (b : List Char)
    (hb : ∀ c, b.head? = some c → p c = false) : b.dropWhile p = b := by
  cases b with
  | nil => rfl
  | cons c t => simp [List.dropWhile_cons, hb c rfl]

lemma pyIsSpace_cases (c : Char) (h : pyIsSpace c = true) :
    c = ' ' ∨ c = Char.ofNat 9 ∨ c = Char.ofNat 10 ∨ c = Char.ofNat 13 ∨
    c = Char.ofNat 11 ∨ c = Char.ofNat 12 := by
  have h3 : c ∈ spaceChars := by
    simpa [pyIsSpace, List.contains_iff_exists_mem_beq, beq_iff_eq] using h
  simpa [spaceChars] using h3

lemma sepChar_not_digit (c : Char) (h : isSepChar c = true) : c.isDigit = false := by
  have h2 : c = ',' ∨ pyIsSpace c = true := by simpa [isSepChar] using h
  rcases h2 with h' | h'
  · subst h'
    decide
  · rcases pyIsSpace_cases c h' with h'|h'|h'|h'|h'|h' <;> (subst h'; decide)

lemma digit_not_sep (c : Char) (h : c.isDigit = true) : isSepChar c = false := by
  cases hsep : isSepChar c
  · rfl
  · have h2 := sepChar_not_digit c hsep
    rw [h] at h2
    simp at h2

lemma neg_not_sep : isSepChar '-' = false := by decide

lemma neg_not_digit : Char.isDigit '-' = false := by decide

lemma dot_not_digit : Char.isDigit '.' = false := by decide

/-- A signed decimal literal as the decimal-pair grammar reads one:
an optional minus sign, one or more digits, a point, one or more
digits. -/
def isDecLit (l : List Char) : Prop :=
  ∃ i f : List Char, i ≠ [] ∧ f ≠ [] ∧ (∀ c ∈ i, c.isDigit = true) ∧
    (∀ c ∈ f, c.isDigit = true) ∧
    (l = i ++ '.' :: f ∨ l = '-' :: (i ++ '.' :: f))

/-- A nonempty run of commas and whitespace (the class between the two
numbers of the decimal pattern). -/
def isSep (l : List Char) : Prop := l ≠ [] ∧ ∀ c ∈ l, isSepChar c = true

/-- Unsigned value of a decimal literal body (digits, point, digits). -/
def decLitMag (m : List Char) : ℚ :=
  (natOfDigits (m.takeWhile Char.isDigit) : ℚ) +
    (natOfDigits ((m.dropWhile Char.isDigit).drop 1) : ℚ) /
      10 ^ ((m.dropWhile Char.isDigit).drop 1).length

/-- Numeric value of a signed decimal literal. -/
def decLitVal (l : List Char) : ℚ :=
  if l.head? = some '-' then -(decLitMag l.tail) else decLitMag l

/-- The claim's hypothesis: two signed decimal numbers separated by
commas and/or whitespace occur somewhere in the string. -/
def decPairOccurs (s : List Char) : Prop :=
  ∃ pre n1 sep n2 post, s = pre ++ (n1 ++ (sep ++ (n2 ++ post))) ∧
    isDecLit n1 ∧ isSep sep ∧ isDecLit n2

lemma decLitVal_pos (i f : List Char) (hi : i ≠ []) (hdi : ∀ c ∈ i, c.isDigit = true)
    (hdf : ∀ c ∈ f, c.isDigit = true) :
    decLitVal (i ++ '.' :: f) =
      (natOfDigits i : ℚ) + (natOfDigits f : ℚ) / 10 ^ f.length := by
  have hhead : (i ++ '.' :: f).head? ≠ some '-' := by
    cases i with
    | nil => exact absurd rfl hi
    | cons c t =>
      simp only [List.cons_append, List.head?_cons, ne_eq, Option.some.injEq]
      intro h
      have := hdi c (by simp)
      rw [h] at this
      exact absurd this (by decide)
  unfold decLitVal
  rw [if_neg hhead]
  unfold decLitMag
  rw [takeWhile_append_all _ _ _ hdi, takeWhile_head_false _ _ (fun c hc => by
    simp only [List.head?_cons, Option.some.injEq] at hc
    rw [← hc]; decide)]
  rw [dropWhile_append_all _ _ _ hdi, dropWhile_head_false _ _ (fun c hc => by
    simp only [List.head?_cons, Option.some.injEq] at hc
    rw [← hc]; decide)]
  simp

lemma decLitVal_neg (i f : List Char) (hi : i ≠ []) (hdi : ∀ c ∈ i, c.isDigit = true)
    (hdf : ∀ c ∈ f, c.isDigit = true) :
    decLitVal ('-' :: (i ++ '.' :: f)) =
      -((natOfDigits i : ℚ) + (natOfDigits f : ℚ) / 10 ^ f.length) := by
  have h := decLitVal_pos i f hi hdi hdf
  unfold decLitVal at h ⊢
  rw [if_pos (by simp)]
  simp only [List.tail_cons]
  rw [if_neg (by
    cases i with
    | nil => exact absurd rfl hi
    | cons c t =>
      simp only [List.cons_append, List.head?_cons, ne_eq, Option.some.injEq]
      intro hh
      have := hdi c (by simp)
      rw [hh] at this
      exact absurd this (by decide))] at h
  rw [h]

lemma head_dropWhile_false (p : Char → Bool) (r : List Char) :
    ∀ c, (r.dropWhile p).head? = some c → p c = false := by
  induction r with
  | nil => intro c hc; simp at hc
  | cons a t ih =>
    intro c hc
    rw [List.dropWhile_cons] at hc
    by_cases ha : p a = true
    · rw [if_pos ha] at hc
      exact ih c hc
    · rw [if_neg ha] at hc
      simp only [List.head?_cons, Option.some.injEq] at hc
      rw [← hc]
      exact Bool.of_not_eq_true ha

lemma matchUMag_exact (i f r : List Char) (hi : i ≠ [])
    (hdi : ∀ c ∈ i, c.isDigit = true) (hf : f ≠ []) (hdf : ∀ c ∈ f, c.isDigit = true)
    (hr : ∀ c, r.head? = some c → c.isDigit = false) :
    matchUMag (i ++ '.' :: (f ++ r)) =
      some ((natOfDigits i : ℚ) + (natOfDigits f : ℚ) / 10 ^ f.length, r) := by
  have hdot : ∀ c, ('.' :: (f ++ r)).head? = some c → c.isDigit = false := by
    intro c hc
    simp only [List.head?_cons, Option.some.injEq] at hc
    rw [← hc]
    decide
  have hsplit1 : (i ++ '.' :: (f ++ r)).takeWhile Char.isDigit = i := by
    rw [takeWhile_append_all _ _ _ hdi, takeWhile_head_false _ _ hdot, List.append_nil]
  have hsplit2 : (i ++ '.' :: (f ++ r)).dropWhile Char.isDigit = '.' :: (f ++ r) := by
    rw [dropWhile_append_all _ _ _ hdi, dropWhile_head_false _ _ hdot]
  have hsplit3 : (f ++ r).takeWhile Char.isDigit = f := by
    rw [takeWhile_append_all _ _ _ hdf, takeWhile_head_false _ _ hr, List.append_nil]
  have hsplit4 : (f ++ r).dropWhile Char.isDigit = r := by
    rw [dropWhile_append_all _ _ _ hdf, dropWhile_head_false _ _ hr]
  unfold matchUMag
  rw [hsplit1, hsplit2]
  simp only [List.head?_cons, List.tail_cons]
  rw [hsplit3, hsplit4]
  simp [hi, hf]

lemma decLit_head_digit_or_neg (n : List Char) (hn : isDecLit n) :
    ∀ c, n.head? = some c → (c.isDigit = true ∨ c = '-') := by
  obtain ⟨i, f, hi, hf, hdi, hdf, hshape⟩ := hn
  intro c hc
  rcases hshape with rfl | rfl
  · cases i with
    | nil => exact absurd rfl hi
    | cons c0 t =>
      left
      simp only [List.cons_append, List.head?_cons, Option.some.injEq] at hc
      rw [← hc]
      exact hdi c0 (by simp)
  · right
    simpa using hc.symm

lemma decLit_ne_nil (n : List Char) (hn : isDecLit n) : n ≠ [] := by
  obtain ⟨i, f, hi, hf, hdi, hdf, hshape⟩ := hn
  rcases hshape with rfl | rfl
  · cases i with
    | nil => exact absurd rfl hi
    | cons c0 t => simp
  · simp

lemma matchNumAt_exact (neg : Bool) (i f r : List Char) (hi : i ≠ [])
    (hdi : ∀ c ∈ i, c.isDigit = true) (hf : f ≠ []) (hdf : ∀ c ∈ f, c.isDigit = true)
    (hr : ∀ c, r.head? = some c → c.isDigit = false) :
    matchNumAt ((if neg then ['-'] else []) ++ (i ++ '.' :: (f ++ r))) =
      some ((if neg then -((natOfDigits i : ℚ) + (natOfDigits f : ℚ) / 10 ^ f.length)
             else (natOfDigits i : ℚ) + (natOfDigits f : ℚ) / 10 ^ f.length), r) := by
  obtain ⟨c0, i', rfl⟩ : ∃ c0 i', i = c0 :: i' := by
    cases i with
    | nil => exact absurd rfl hi
    | cons c0 i' => exact ⟨c0, i', rfl⟩
  have hc0 : c0.isDigit = true := hdi c0 (by simp)
  have hc0ne : c0 ≠ '-' := by
    intro h
    rw [h] at hc0
    exact absurd hc0 (by decide)
  cases neg with
  | false =>
    have hneg : (decide (((c0 :: i') ++ '.' :: (f ++ r)).head? = some '-')) = false := by
      simp [hc0ne]
    simp only [if_false, Bool.false_eq_true, List.nil_append]
    unfold matchNumAt
    simp only [hneg, Bool.false_eq_true, if_false]
    rw [matchUMag_exact _ _ _ hi hdi hf hdf hr]
  | true =>
    have hneg : (decide (('-' :: ((c0 :: i') ++ '.' :: (f ++ r))).head? = some '-')) = true := by
      simp
    simp only [if_true, List.singleton_append]
    unfold matchNumAt
    simp only [hneg, if_true, List.tail_cons]
    rw [matchUMag_exact _ _ _ hi hdi hf hdf hr]

lemma matchNumAt_isSome (n r : List Char) (hn : isDecLit n) :
    (matchNumAt (n ++ r)).isSome = true := by
  obtain ⟨i, f, hi, hf, hdi, hdf, hshape⟩ := hn
  have hkey : ∀ (neg : Bool),
      (matchNumAt ((if neg then ['-'] else []) ++ (i ++ '.' :: (f ++ r)))).isSome = true := by
    intro neg
    rw [show f ++ r = (f ++ r.takeWhile Char.isDigit) ++ r.dropWhile Char.isDigit by
      rw [List.append_assoc, List.takeWhile_append_dropWhile]]
    rw [matchNumAt_exact neg i (f ++ r.takeWhile Char.isDigit) (r.dropWhile Char.isDigit) hi hdi
      (by simp [hf]) (fun c hc => (List.mem_append.mp hc).elim (hdf c) (fun h => List.mem_takeWhile_imp h))
      (head_dropWhile_false _ _)]
    rfl
  rcases hshape with rfl | rfl
  · simpa using hkey false
  · simpa using hkey true

lemma matchUMag_sound (cs1 : List Char) (v : ℚ) (rest : List Char)
    (h : matchUMag cs1 = some (v, rest)) :
    ∃ i f, cs1 = i ++ '.' :: (f ++ rest) ∧ i ≠ [] ∧ f ≠ [] ∧
      (∀ c ∈ i, c.isDigit = true) ∧ (∀ c ∈ f, c.isDigit = true) ∧
      v = (natOfDigits i : ℚ) + (natOfDigits f : ℚ) / 10 ^ f.length := by
  simp only [matchUMag] at h
  split_ifs at h with h1 h2 h3
  · obtain ⟨d, dt, hdw⟩ : ∃ d dt, cs1.dropWhile Char.isDigit = d :: dt := by
      cases hcase : cs1.dropWhile Char.isDigit with
      | nil => rw [hcase] at h2; simp at h2
      | cons d dt => exact ⟨d, dt, rfl⟩
    have hd : d = '.' := by
      rw [hdw] at h2
      simpa using h2
    subst hd
    rw [Option.some.injEq, Prod.mk.injEq] at h
    obtain ⟨hv, hrest⟩ := h
    refine ⟨cs1.takeWhile Char.isDigit, dt.takeWhile Char.isDigit, ?_, h1, ?_, ?_, ?_, ?_⟩
    · conv_lhs => rw [← List.takeWhile_append_dropWhile (p := Char.isDigit) (l := cs1)]
      rw [hdw]
      rw [hdw] at hrest
      simp only [List.tail_cons] at hrest
      rw [← hrest]
      simp [List.takeWhile_append_dropWhile]
    · rw [hdw] at h3
      simpa using h3
    · exact fun c hc => List.mem_takeWhile_imp hc
    · exact fun c hc => List.mem_takeWhile_imp hc
    · rw [hdw] at hv
      simp only [List.tail_cons] at hv
      exact hv.symm

lemma matchNumAt_sound (cs : List Char) (v : ℚ) (rest : List Char)
    (h : matchNumAt cs = some (v, rest)) :
    ∃ n, cs = n ++ rest ∧ isDecLit n ∧ decLitVal n = v := by
  by_cases hneg : cs.head? = some '-'
  · obtain ⟨c, t, rfl⟩ : ∃ c t, cs = c :: t := by
      cases cs with
      | nil => simp at hneg
      | cons c t => exact ⟨c, t, rfl⟩
    have hc : c = '-' := by simpa using hneg
    subst hc
    have hnegb : (decide (('-' :: t).head? = some '-')) = true := by simp
    simp only [matchNumAt, hnegb, if_true, List.tail_cons] at h
    cases hum : matchUMag t with
    | none => rw [hum] at h; exact absurd h (by simp)
    | some p =>
      obtain ⟨v', rest'⟩ := p
      rw [hum] at h
      rw [Option.some.injEq, Prod.mk.injEq] at h
      obtain ⟨hv, hrest⟩ := h
      subst hrest
      subst hv
      obtain ⟨i, f, hteq, hi, hf, hdi, hdf, hval⟩ := matchUMag_sound t v' rest' (by rw [hum])
      subst hval
      refine ⟨'-' :: (i ++ '.' :: f), ?_, ⟨i, f, hi, hf, hdi, hdf, Or.inr rfl⟩, ?_⟩
      · rw [hteq]
        simp [List.append_assoc]
      · rw [decLitVal_neg i f hi hdi hdf]
  · have hnegb : (decide (cs.head? = some '-')) = false := by simpa using hneg
    simp only [matchNumAt, hnegb, Bool.false_eq_true, if_false] at h
    cases hum : matchUMag cs with
    | none => rw [hum] at h; exact absurd h (by simp)
    | some p =>
      obtain ⟨v', rest'⟩ := p
      rw [hum] at h
      rw [Option.some.injEq, Prod.mk.injEq] at h
      obtain ⟨hv, hrest⟩ := h
      subst hrest
      subst hv
      obtain ⟨i, f, hteq, hi, hf, hdi, hdf, hval⟩ := matchUMag_sound cs v' rest' (by rw [hum])
      subst hval
      refine ⟨i ++ '.' :: f, ?_, ⟨i, f, hi, hf, hdi, hdf, Or.inl rfl⟩, ?_⟩
      · rw [hteq]
        simp [List.append_assoc]
      · rw [decLitVal_pos i f hi hdi hdf]

lemma matchDecPairAt_sound (cs : List Char) (a b : ℚ)
    (h : matchDecPairAt cs = some (a, b)) :
    ∃ n1 sep n2 post, cs = n1 ++ (sep ++ (n2 ++ post)) ∧
      isDecLit n1 ∧ isSep sep ∧ isDecLit n2 ∧ a = decLitVal n1 ∧ b = decLitVal n2 := by
  unfold matchDecPairAt at h
  cases h1 : matchNumAt cs with
  | none => rw [h1] at h; exact absurd h (by simp)
  | some p =>
    obtain ⟨v1, r1⟩ := p
    rw [h1] at h
    simp only at h
    split_ifs at h with hsep
    cases h2 : matchNumAt (r1.dropWhile isSepChar) with
    | none => rw [h2] at h; exact absurd h (by simp)
    | some q =>
      obtain ⟨v2, r2⟩ := q
      rw [h2] at h
      simp only [Option.some.injEq, Prod.mk.injEq] at h
      obtain ⟨ha, hb⟩ := h
      obtain ⟨n1, hcs, hn1, hval1⟩ := matchNumAt_sound cs v1 r1 h1
      obtain ⟨n2, hr2, hn2, hval2⟩ := matchNumAt_sound _ v2 r2 h2
      refine ⟨n1, r1.takeWhile isSepChar, n2, r2, ?_, hn1,
        ⟨hsep, fun c hc => List.mem_takeWhile_imp hc⟩, hn2, by rw [← ha, hval1], by rw [← hb, hval2]⟩
      rw [hcs]
      congr 1
      rw [← hr2]
      exact (List.takeWhile_append_dropWhile (p := isSepChar) (l := r1)).symm

lemma matchDecPairAt_isSome (n1 sep n2 post : List Char)
    (h1 : isDecLit n1) (hs : isSep sep) (h2 : isDecLit n2) :
    (matchDecPairAt (n1 ++ (sep ++ (n2 ++ post)))).isSome = true := by
  obtain ⟨i, f, hi, hf, hdi, hdf, hshape⟩ := h1
  obtain ⟨hsne, hsall⟩ := hs
  have hsephead : ∀ c, (sep ++ (n2 ++ post)).head? = some c → c.isDigit = false := by
    intro c hc
    cases sep with
    | nil => exact absurd rfl hsne
    | cons s0 st =>
      simp only [List.cons_append, List.head?_cons, Option.some.injEq] at hc
      rw [← hc]
      exact sepChar_not_digit s0 (hsall s0 (by simp))
  have hsepsplit : (sep ++ (n2 ++ post)).takeWhile isSepChar = sep ∧
      (sep ++ (n2 ++ post)).dropWhile isSepChar = n2 ++ post := by
    have hn2head : ∀ c, (n2 ++ post).head? = some c → isSepChar c = false := by
      intro c hc
      have hne2 := decLit_ne_nil n2 h2
      cases n2 with
      | nil => exact absurd rfl hne2
      | cons c2 t2 =>
        simp only [List.cons_append, List.head?_cons, Option.some.injEq] at hc
        rcases decLit_head_digit_or_neg (c2 :: t2) h2 c2 rfl with hd | hd
        · rw [← hc]
          exact digit_not_sep c2 hd
        · rw [← hc, hd]
          decide
    constructor
    · rw [takeWhile_append_all _ _ _ hsall, takeWhile_head_false _ _ hn2head, List.append_nil]
    · rw [dropWhile_append_all _ _ _ hsall, dropWhile_head_false _ _ hn2head]
  have hkey : ∀ (neg : Bool),
      (matchDecPairAt ((if neg then ['-'] else []) ++
        (i ++ '.' :: (f ++ (sep ++ (n2 ++ post)))))).isSome = true := by
    intro neg
    have hexact := matchNumAt_exact neg i f (sep ++ (n2 ++ post)) hi hdi hf hdf hsephead
    unfold matchDecPairAt
    rw [hexact]
    simp only
    rw [if_neg (by rw [hsepsplit.1]; exact hsne)]
    rw [hsepsplit.2]
    have hsome := matchNumAt_isSome n2 post h2
    obtain ⟨q, hq⟩ := Option.isSome_iff_exists.mp hsome
    obtain ⟨v2, r2⟩ := q
    rw [hq]
    rfl
  rcases hshape with rfl | rfl
  · have := hkey false
    simpa [List.append_assoc] using this
  · have := hkey true
    simpa [List.append_assoc] using this

lemma searchWith_of_match {α : Type} (m : List Char → Option α) (s : List Char) (r : α)
    (h : m s = some r) : searchWith m s = some r := by
  cases s with
  | nil => simpa [searchWith] using h
  | cons c t => simp [searchWith, h]

lemma searchWith_isSome_suffix {α : Type} (m : List Char → Option α) (pre t : List Char)
    (h : (m t).isSome = true) : (searchWith m (pre ++ t)).isSome = true := by
  induction pre with
  | nil =>
    obtain ⟨r, hr⟩ := Option.isSome_iff_exists.mp h
    rw [List.nil_append, searchWith_of_match m t r hr]
    rfl
  | cons c p ih =>
    rw [List.cons_append]
    unfold searchWith
    cases hm : m (c :: (p ++ t)) with
    | some r => rfl
    | none => exact ih

lemma searchWith_sound {α : Type} (m : List Char → Option α) (s : List Char) (r : α)
    (h : searchWith m s = some r) : ∃ pre t, s = pre ++ t ∧ m t = some r := by
  induction s with
  | nil => exact ⟨[], [], rfl, by simpa [searchWith] using h⟩
  | cons c t ih =>
    unfold searchWith at h
    cases hm : m (c :: t) with
    | some r' =>
      rw [hm] at h
      exact ⟨[], c :: t, rfl, hm.trans h⟩
    | none =>
      rw [hm] at h
      obtain ⟨pre, t', ht, hmt⟩ := ih h
      exact ⟨c :: pre, t', by rw [List.cons_append, ht], hmt⟩

/-- C1: whenever two signed decimal literals separated by commas and/or
whitespace occur anywhere in the input, the decimal-pair grammar (tried
first, as a substring search) matches: the parser returns the values of
such a pair of literals occurring in the string, and the DMS/DDM
grammars are never consulted (the result is the decimal search's). -/
theorem parse_decimal_priority (s : List Char) (hocc : decPairOccurs s) :
    ∃ pre n1 sep n2 post, s = pre ++ (n1 ++ (sep ++ (n2 ++ post))) ∧
      isDecLit n1 ∧ isSep sep ∧ isDecLit n2 ∧
      searchWith matchDecPairAt s = some (decLitVal n1, decLitVal n2) ∧
      parse_coordinate s = .ok (decLitVal n1, decLitVal n2) := by
  obtain ⟨pre, n1, sep, n2, post, hs, h1, hsep, h2⟩ := hocc
  have hsome : (searchWith matchDecPairAt s).isSome = true := by
    rw [hs]
    exact searchWith_isSome_suffix _ pre _ (matchDecPairAt_isSome n1 sep n2 post h1 hsep h2)
  obtain ⟨r, hr⟩ := Option.isSome_iff_exists.mp hsome
  obtain ⟨a, b⟩ := r
  obtain ⟨pre', t', hst, hmt⟩ := searchWith_sound _ _ _ hr
  obtain ⟨n1', sep', n2', post', ht', h1', hsep', h2', ha, hb⟩ := matchDecPairAt_sound _ _ _ hmt
  refine ⟨pre', n1', sep', n2', post', by rw [hst, ht'], h1', hsep', h2', ?_, ?_⟩
  · rw [hr, ha, hb]
  · unfold parse_coordinate
    rw [hr, ha, hb]

/-- C1 witness: the decimal string of the docstring, parsed by the
decimal-pair grammar. -/
theorem parse_decimal_priority_witness :
    decPairOccurs ("47.602050, -122.324194".toList) ∧
    ∃ pre n1 sep n2 post, "47.602050, -122.324194".toList = pre ++ (n1 ++ (sep ++ (n2 ++ post))) ∧
      isDecLit n1 ∧ isSep sep ∧ isDecLit n2 ∧
      searchWith matchDecPairAt "47.602050, -122.324194".toList =
        some (decLitVal n1, decLitVal n2) ∧
      parse_coordinate "47.602050, -122.324194".toList = .ok (decLitVal n1, decLitVal n2) := by
  have hocc : decPairOccurs ("47.602050, -122.324194".toList) := by
    refine ⟨[], "47.602050".toList, ", ".toList, "-122.324194".toList, [], by decide,
      ⟨"47".toList, "602050".toList, by decide, by decide, by decide, by decide, by decide⟩,
      ⟨by decide, by decide⟩,
      ⟨"122".toList, "324194".toList, by decide, by decide, by decide, by decide, by decide⟩⟩
  exact ⟨hocc, parse_decimal_priority _ hocc⟩

lemma digitChar_isDigit (d : ℕ) (hd : d < 10) : (Char.ofNat (48 + d)).isDigit = true := by
  interval_cases d <;> decide

lemma digitVal_ofNat (d : ℕ) (hd : d < 10) : digitVal (Char.ofNat (48 + d)) = d := by
  interval_cases d <;> decide

lemma natDigits_ne_nil (n : ℕ) : natDigits n ≠ [] := by
  rw [natDigits.eq_def]
  split_ifs <;> simp

lemma natDigits_digits (n : ℕ) : ∀ c ∈ natDigits n, c.isDigit = true := by
  induction n using Nat.strong_induction_on with
  | _ n ih =>
    rw [natDigits.eq_def]
    split_ifs with h
    · intro c hc
      rw [List.mem_singleton.mp hc]
      exact digitChar_isDigit n h
    · intro c hc
      rcases List.mem_append.mp hc with hc | hc
      · exact ih (n / 10) (Nat.div_lt_self (by omega) (by omega)) c hc
      · rw [List.mem_singleton.mp hc]
        exact digitChar_isDigit (n % 10) (Nat.mod_lt _ (by omega))

lemma natOfDigits_aux (l : List Char) :
    ∀ acc : ℕ, l.foldl (fun a c => 10 * a + digitVal c) acc =
      acc * 10 ^ l.length + natOfDigits l := by
  induction l with
  | nil =>
    intro acc
    simp [natOfDigits]
  | cons c t ih =>
    intro acc
    simp only [List.foldl_cons, natOfDigits, List.length_cons]
    rw [ih (10 * acc + digitVal c), ih (10 * 0 + digitVal c)]
    ring

lemma natOfDigits_append (a b : List Char) :
    natOfDigits (a ++ b) = natOfDigits a * 10 ^ b.length + natOfDigits b := by
  unfold natOfDigits
  rw [List.foldl_append]
  rw [natOfDigits_aux]
  rfl

lemma natOfDigits_replicate_zero (z : ℕ) : natOfDigits (List.replicate z '0') = 0 := by
  induction z with
  | zero => rfl
  | succ z ih =>
    rw [List.replicate_succ]
    show List.foldl (fun a c => 10 * a + digitVal c) 0 ('0' :: List.replicate z '0') = 0
    rw [List.foldl_cons, natOfDigits_aux]
    have hz : digitVal '0' = 0 := by decide
    rw [hz]
    simpa [natOfDigits] using ih

lemma natOfDigits_natDigits (n : ℕ) : natOfDigits (natDigits n) = n := by
  induction n using Nat.strong_induction_on with
  | _ n ih =>
    rw [natDigits.eq_def]
    split_ifs with h
    · show List.foldl _ 0 [Char.ofNat (48 + n)] = n
      rw [List.foldl_cons, List.foldl_nil, digitVal_ofNat n h]
      omega
    · rw [natOfDigits_append]
      have h1 : natOfDigits [Char.ofNat (48 + n % 10)] = n % 10 := by
        show List.foldl _ 0 [Char.ofNat (48 + n % 10)] = n % 10
        rw [List.foldl_cons, List.foldl_nil, digitVal_ofNat _ (Nat.mod_lt _ (by omega))]
        omega
      rw [h1, ih (n / 10) (Nat.div_lt_self (by omega) (by omega))]
      simp only [List.length_singleton, pow_one]
      omega

lemma natDigits_len_le : ∀ (p n : ℕ), n < 10 ^ p → 0 < p → (natDigits n).length ≤ p := by
  intro p
  induction p with
  | zero =>
    intro n h h0
    omega
  | succ p ih =>
    intro n h _
    rw [natDigits.eq_def]
    split_ifs with h10
    · simp
    · rw [List.length_append, List.length_singleton]
      have hp : 0 < p := by
        by_contra hp
        have hp0 : p = 0 := by omega
        subst hp0
        norm_num at h
        omega
      have hdivlt : n / 10 < 10 ^ p := by
        rw [Nat.div_lt_iff_lt_mul (by norm_num)]
        calc n < 10 ^ (p + 1) := h
        _ = 10 ^ p * 10 := by ring
      have := ih (n / 10) hdivlt hp
      omega

lemma padDigits_spec (p k : ℕ) (hk : k < 10 ^ p) (hp : 0 < p) :
    (padDigits p k).length = p ∧ (∀ c ∈ padDigits p k, c.isDigit = true) ∧
    natOfDigits (padDigits p k) = k ∧ padDigits p k ≠ [] := by
  unfold padDigits
  have hlen := natDigits_len_le p k hk hp
  have hlenq : (List.replicate (p - (natDigits k).length) '0' ++ natDigits k).length = p := by
    rw [List.length_append, List.length_replicate]
    omega
  refine ⟨hlenq, ?_, ?_, ?_⟩
  · intro c hc
    rcases List.mem_append.mp hc with hc | hc
    · rw [List.eq_of_mem_replicate hc]
      decide
    · exact natDigits_digits k c hc
  · rw [natOfDigits_append, natOfDigits_replicate_zero, natOfDigits_natDigits]
    ring
  · intro hnil
    rw [hnil] at hlenq
    simp at hlenq
    omega

lemma roundHalfEven_intCast (m : ℤ) : roundHalfEven (m : ℚ) = m := by
  unfold roundHalfEven
  rw [Int.floor_intCast]
  rw [if_pos (by norm_num)]

lemma formatFixed_shape (p : ℕ) (q : ℚ) :
    formatFixed p q = (if roundHalfEven (q * 10 ^ p) < 0 then ['-'] else []) ++
      (natDigits ((roundHalfEven (q * 10 ^ p)).natAbs / 10 ^ p) ++
        '.' :: padDigits p ((roundHalfEven (q * 10 ^ p)).natAbs % 10 ^ p)) := by
  unfold formatFixed
  simp [List.append_assoc]

lemma formatFixed_val (n : ℕ) :
    (natOfDigits (natDigits (n / 10 ^ 6)) : ℚ) +
      (natOfDigits (padDigits 6 (n % 10 ^ 6)) : ℚ) /
        10 ^ (padDigits 6 (n % 10 ^ 6)).length = (n : ℚ) / 10 ^ 6 := by
  have hnd : n % 10 ^ 6 < 10 ^ 6 := Nat.mod_lt _ (by norm_num)
  have hpad := padDigits_spec 6 (n % 10 ^ 6) hnd (by norm_num)
  rw [natOfDigits_natDigits, hpad.2.2.1, hpad.1]
  rw [eq_div_iff (by norm_num : ((10 : ℚ) ^ 6) ≠ 0)]
  rw [add_mul, div_mul_cancel₀ _ (by norm_num : ((10 : ℚ) ^ 6) ≠ 0)]
  have hdm : n / 10 ^ 6 * 10 ^ 6 + n % 10 ^ 6 = n := by
    have h6 : (10 : ℕ) ^ 6 = 1000000 := by norm_num
    rw [h6]
    omega
  calc ((n / 10 ^ 6 : ℕ) : ℚ) * 10 ^ 6 + ((n % 10 ^ 6 : ℕ) : ℚ)
      = ((n / 10 ^ 6 * 10 ^ 6 + n % 10 ^ 6 : ℕ) : ℚ) := by push_cast; ring
    _ = (n : ℚ) := by rw [hdm]

lemma matchNum_formatFixed (q : ℚ) (r : List Char)
    (hr : ∀ c, r.head? = some c → c.isDigit = false) :
    matchNumAt (formatFixed 6 q ++ r) =
      some (((roundHalfEven (q * 10 ^ 6) : ℚ)) / 10 ^ 6, r) := by
  rw [formatFixed_shape]
  set m := roundHalfEven (q * 10 ^ 6) with hm
  set n := m.natAbs with hn
  have hnd : n % 10 ^ 6 < 10 ^ 6 := Nat.mod_lt _ (by norm_num)
  have hpad := padDigits_spec 6 (n % 10 ^ 6) hnd (by norm_num)
  have hi := natDigits_ne_nil (n / 10 ^ 6)
  have hdi := natDigits_digits (n / 10 ^ 6)
  by_cases hmneg : m < 0
  · have hncast : (n : ℚ) = -(m : ℚ) := by
      have h1 : (n : ℤ) = -m := by
        rw [hn]
        omega
      calc (n : ℚ) = ((n : ℤ) : ℚ) := by push_cast; ring
        _ = ((-m : ℤ) : ℚ) := by rw [h1]
        _ = -(m : ℚ) := by push_cast; ring
    have hex := matchNumAt_exact true (natDigits (n / 10 ^ 6)) (padDigits 6 (n % 10 ^ 6)) r
      hi hdi hpad.2.2.2 hpad.2.1 hr
    rw [if_pos rfl, if_pos rfl] at hex
    rw [if_pos hmneg]
    simp only [List.append_assoc, List.cons_append, List.singleton_append] at hex ⊢
    rw [hex, formatFixed_val n]
    rw [show ((n : ℚ)) / 10 ^ 6 = -((m : ℚ) / 10 ^ 6) by rw [hncast]; ring]
    rw [neg_neg]
  · have hncast : (n : ℚ) = (m : ℚ) := by
      have h1 : (n : ℤ) = m := by
        rw [hn]
        omega
      calc (n : ℚ) = ((n : ℤ) : ℚ) := by push_cast; ring
        _ = (m : ℚ) := by rw [h1]
    have hex := matchNumAt_exact false (natDigits (n / 10 ^ 6)) (padDigits 6 (n % 10 ^ 6)) r
      hi hdi hpad.2.2.2 hpad.2.1 hr
    rw [if_neg (by simp), if_neg (by simp)] at hex
    rw [if_neg hmneg]
    simp only [List.append_assoc, List.cons_append, List.singleton_append, List.nil_append] at hex ⊢
    rw [hex, formatFixed_val n, hncast]

lemma formatFixed_head_not_sep (q : ℚ) :
    ∀ c, (formatFixed 6 q).head? = some c → isSepChar c = false := by
  rw [formatFixed_shape]
  intro c hc
  split_ifs at hc with h
  · simp only [List.cons_append, List.head?_cons, Option.some.injEq] at hc
    rw [← hc]
    decide
  · rw [List.nil_append] at hc
    obtain ⟨c0, t, hnd⟩ : ∃ c0 t, natDigits ((roundHalfEven (q * 10 ^ 6)).natAbs / 10 ^ 6) = c0 :: t := by
      cases hcase : natDigits ((roundHalfEven (q * 10 ^ 6)).natAbs / 10 ^ 6) with
      | nil => exact absurd hcase (natDigits_ne_nil _)
      | cons c0 t => exact ⟨c0, t, rfl⟩
    rw [hnd] at hc
    simp only [List.cons_append, List.head?_cons, Option.some.injEq] at hc
    rw [← hc]
    exact digit_not_sep c0 (natDigits_digits _ c0 (by rw [hnd]; simp))

/-- C2: formatting a pair in decimal, parsing the result and formatting
again reproduces the first formatted string exactly — the parse returns
the decimal value rounded (half-to-even) at the sixth fractional digit,
and formatting that value prints the same six-decimal string. -/
theorem decimal_roundtrip (lat lon : ℚ) (hlat : |lat| < 90) :
    ∃ s r, format_coordinate lat lon "decimal" = .ok s ∧
      parse_coordinate s = .ok r ∧
      format_coordinate r.1 r.2 "decimal" = .ok s := by
  refine ⟨formatFixed 6 lat ++ ',' :: ' ' :: formatFixed 6 lon,
    ((roundHalfEven (lat * 10 ^ 6) : ℚ) / 10 ^ 6, (roundHalfEven (lon * 10 ^ 6) : ℚ) / 10 ^ 6),
    ?_, ?_, ?_⟩
  · unfold format_coordinate
    rw [if_pos rfl]
  · have hm1 : matchNumAt (formatFixed 6 lat ++ ',' :: ' ' :: formatFixed 6 lon) =
        some ((roundHalfEven (lat * 10 ^ 6) : ℚ) / 10 ^ 6, ',' :: ' ' :: formatFixed 6 lon) := by
      apply matchNum_formatFixed
      intro c hc
      simp only [List.head?_cons, Option.some.injEq] at hc
      rw [← hc]
      decide
    have hm2 : matchNumAt (formatFixed 6 lon) =
        some ((roundHalfEven (lon * 10 ^ 6) : ℚ) / 10 ^ 6, []) := by
      have := matchNum_formatFixed lon [] (by intro c hc; simp at hc)
      simpa using this
    have hsep1 : (',' :: ' ' :: formatFixed 6 lon).takeWhile isSepChar ≠ [] := by
      rw [List.takeWhile_cons, if_pos (by decide)]
      simp
    have hdrop : (',' :: ' ' :: formatFixed 6 lon).dropWhile isSepChar = formatFixed 6 lon := by
      rw [List.dropWhile_cons, if_pos (by decide), List.dropWhile_cons, if_pos (by decide)]
      exact dropWhile_head_false _ _ (fun c hc => formatFixed_head_not_sep lon c hc)
    have hpair : matchDecPairAt (formatFixed 6 lat ++ ',' :: ' ' :: formatFixed 6 lon) =
        some ((roundHalfEven (lat * 10 ^ 6) : ℚ) / 10 ^ 6,
          (roundHalfEven (lon * 10 ^ 6) : ℚ) / 10 ^ 6) := by
      unfold matchDecPairAt
      rw [hm1]
      simp only
      rw [if_neg hsep1, hdrop, hm2]
    unfold parse_coordinate
    rw [searchWith_of_match _ _ _ hpair]
  · have hr1 : roundHalfEven ((roundHalfEven (lat * 10 ^ 6) : ℚ) / 10 ^ 6 * 10 ^ 6) =
        roundHalfEven (lat * 10 ^ 6) := by
      rw [div_mul_cancel₀ _ (by norm_num : ((10 : ℚ) ^ 6) ≠ 0), roundHalfEven_intCast]
    have hr2 : roundHalfEven ((roundHalfEven (lon * 10 ^ 6) : ℚ) / 10 ^ 6 * 10 ^ 6) =
        roundHalfEven (lon * 10 ^ 6) := by
      rw [div_mul_cancel₀ _ (by norm_num : ((10 : ℚ) ^ 6) ≠ 0), roundHalfEven_intCast]
    have hfix1 : formatFixed 6 ((roundHalfEven (lat * 10 ^ 6) : ℚ) / 10 ^ 6) =
        formatFixed 6 lat := by
      rw [formatFixed_shape, formatFixed_shape, hr1]
    have hfix2 : formatFixed 6 ((roundHalfEven (lon * 10 ^ 6) : ℚ) / 10 ^ 6) =
        formatFixed 6 lon := by
      rw [formatFixed_shape, formatFixed_shape, hr2]
    unfold format_coordinate
    rw [if_pos rfl, hfix1, hfix2]

/-- C2 witness: the round-trip theorem applied at (47.5, −122.25). -/
theorem decimal_roundtrip_witness :
    |(47.5 : ℚ)| < 90 ∧
    ∃ s r, format_coordinate (47.5 : ℚ) (-122.25 : ℚ) "decimal" = .ok s ∧
      parse_coordinate s = .ok r ∧
      format_coordinate r.1 r.2 "decimal" = .ok s :=
  ⟨by rw [abs_of_nonneg (by norm_num)]; norm_num, decimal_roundtrip 47.5 (-122.25) (by rw [abs_of_nonneg (by norm_num)]; norm_num)⟩
